import Mathlib

/-!
Shallow embedding of the Knowledge Galaxy canvas component
(`KnowledgeGalaxy.tsx`): radial tree layout (`generateNodePositions`),
camera state and interaction handlers (`focusOnNode`, `animateCamera`,
`handleWheel`, `handleMouseDown`, `handleMouseMove`), the hit test
(`getNodeAtPosition`) and the interaction-effect buffer
(`createInteractionEffect`), together with theorems settling the spec
claims about them.

JS numbers are modelled as `ℝ` where transcendental functions
(`Math.cos`, `Math.sin`, `Math.PI`, `Math.sqrt`) occur, and as `ℚ`
for the purely field-arithmetic camera/interaction state.
-/

namespace Galaxy

/-- JS `Math.trunc`-style integer part (toward zero), used to model the
JS `%` operator, whose quotient is truncated. -/
noncomputable def jsTrunc (x : ℝ) : ℤ :=
  if 0 ≤ x then ⌊x⌋ else ⌈x⌉

/-- JS remainder operator `a % b`: `a - b * trunc (a / b)`. -/
noncomputable def jsMod (a b : ℝ) : ℝ :=
  a - b * jsTrunc (a / b)

/-- JS `Math.round`: round half toward positive infinity, `⌊x + 1/2⌋`. -/
noncomputable def jsRound (x : ℝ) : ℤ :=
  ⌊x + 1 / 2⌋

/-- JS `note.importance || (5 - depth)`: the default applies when
`importance` is `undefined` (`none`) or `0` (falsy). -/
def impOr (imp : Option ℚ) (dflt : ℚ) : ℚ :=
  match imp with
  | none => dflt
  | some v => if v = 0 then dflt else v

/-- Input note tree (the `Note` interface fields that
`generateNodePositions` reads: `id`, `title`, `content`, `children`,
`importance`; the traversal recomputes `depth` itself). -/
inductive NoteT : Type where
  | node (id title content : String) (children : List NoteT) (importance : Option ℚ) : NoteT
deriving Repr

/-- Positioned node produced by `generateNodePositions`: the note's
fields plus world coordinates and a parent back-reference (modelled by
the parent's id). -/
structure PNode where
  id : String
  title : String
  content : String
  depth : ℕ
  importance : ℚ
  x : ℝ
  y : ℝ
  parent : Option String

mutual

/-- `maxBranchingDepth` contribution of one node visited at `d`
(`findMaxBranchingDepth`): a node with children contributes its depth
and recurses into its children at `d + 1`. -/
def mbdNode : NoteT → ℕ → ℕ
  | .node _ _ _ [] _, _ => 0
  | .node _ _ _ (c :: cs) _, d => max d (mbdList (c :: cs) (d + 1))

/-- `maxBranchingDepth` over a list of subtrees all visited at `d`. -/
def mbdList : List NoteT → ℕ → ℕ
  | [], _ => 0
  | c :: cs, d => max (mbdNode c d) (mbdList cs d)

end

/-- `scaleFactor = 1 + maxBranchingDepth` for a root list. -/
noncomputable def layoutScaleFactor (roots : List NoteT) : ℝ :=
  1 + (mbdList roots 0 : ℝ)

/-- `baseRadius = 250 * scaleFactor`. -/
noncomputable def layoutBaseRadius (roots : List NoteT) : ℝ :=
  250 * layoutScaleFactor roots

/-- `depthIncrement = 50 * scaleFactor`. -/
noncomputable def layoutDepthIncrement (roots : List NoteT) : ℝ :=
  50 * layoutScaleFactor roots

/-- `leafPullIn = 200 * scaleFactor`. -/
noncomputable def layoutLeafPullIn (roots : List NoteT) : ℝ :=
  200 * layoutScaleFactor roots

/-- Radius at which a node is placed from its parent:
`baseRadius + (depth-1)*depthIncrement`, minus `leafPullIn` when the
node is a leaf deeper than level 1. -/
noncomputable def layoutRadius (sf : ℝ) (d : ℕ) (children : List NoteT) : ℝ :=
  250 * sf + ((d : ℝ) - 1) * (50 * sf) -
    (if 1 < d ∧ children.isEmpty then 200 * sf else 0)

/-- `angleStep = 2π / effectiveChildrenCount`, where the effective count
is `childCount` for a root parent and `childCount + 1` otherwise. -/
noncomputable def childAngleStep (isRoot : Bool) (count : ℕ) : ℝ :=
  2 * Real.pi / (if isRoot then (count : ℝ) else (count : ℝ) + 1)

/-- `forbiddenSlot`: `-1` for a root parent, otherwise
`round(backAngle / angleStep)` with `backAngle = (angle + π) % (2π)`. -/
noncomputable def forbiddenSlot (isRoot : Bool) (angle step : ℝ) : ℤ :=
  if isRoot then -1 else jsRound (jsMod (angle + Real.pi) (2 * Real.pi) / step)

/-- The sequence of slot indices the child-assignment loop produces:
`currentSlot` starts at `cur` and is bumped past the forbidden slot. -/
def slotsFrom (forbidden : ℤ) (cur : ℕ) : ℕ → List ℕ
  | 0 => []
  | n + 1 =>
    let s := if (cur : ℤ) = forbidden then cur + 1 else cur
    s :: slotsFrom forbidden (s + 1) n

mutual

/-- The recursive `traverse` closure of `generateNodePositions`: place
one node (roots at the parent origin, others on the circle of
`layoutRadius` at `angle`), then lay out its children at the slot
angles. -/
noncomputable def traverse (n : NoteT) (d : ℕ) (px py angle sf : ℝ)
    (pid : Option String) : List PNode :=
  match n with
  | .node i t c cs imp =>
    let radius := layoutRadius sf d cs
    let nodeX := if d = 0 then px else px + Real.cos angle * radius
    let nodeY := if d = 0 then py else py + Real.sin angle * radius
    let step := childAngleStep (d == 0) cs.length
    let f := forbiddenSlot (d == 0) angle step
    { id := i, title := t, content := c, depth := d,
      importance := impOr imp (5 - (d : ℚ)), x := nodeX, y := nodeY,
      parent := pid }
      :: traverseList cs (slotsFrom f 0 cs.length) (d + 1) nodeX nodeY step sf
          (some i)

/-- Lay out a list of children, pairing each with its assigned slot. -/
noncomputable def traverseList (cs : List NoteT) (slots : List ℕ) (d : ℕ)
    (px py step sf : ℝ) (pid : Option String) : List PNode :=
  match cs, slots with
  | [], _ => []
  | _ :: _, [] => []
  | c :: rest, s :: ss =>
    traverse c d px py ((s : ℝ) * step) sf pid ++
      traverseList rest ss d px py step sf pid

end

/-- `generateNodePositions`: flat list of positioned nodes, every root
placed at the world origin. -/
noncomputable def generateNodePositions (roots : List NoteT) : List PNode :=
  (roots.map (fun r => traverse r 0 0 0 0 (layoutScaleFactor roots) none)).flatten

/-- Position of the node with the given id in a layout result
(first match, as `Array.prototype.find` would give). -/
noncomputable def posOf (l : List PNode) (i : String) : Option (ℝ × ℝ) :=
  (l.find? (fun p => p.id == i)).map (fun p => (p.x, p.y))

/-- Euclidean distance between two planar points. -/
noncomputable def euclDist (p q : ℝ × ℝ) : ℝ :=
  Real.sqrt ((p.1 - q.1) ^ 2 + (p.2 - q.2) ^ 2)

/-- The `CameraState` record of the component. -/
structure Camera where
  scale : ℚ
  offset : ℚ × ℚ
  targetScale : ℚ
  targetOffset : ℚ × ℚ
  isAnimating : Bool
  animationStart : ℚ
  animationDuration : ℚ
deriving DecidableEq

/-- The initial camera (`useState` initializer): scale 1, zero offsets,
not animating, 600 ms animation duration. -/
def initCamera : Camera :=
  { scale := 1, offset := (0, 0), targetScale := 1, targetOffset := (0, 0),
    isAnimating := false, animationStart := 0, animationDuration := 600 }

/-- `handleWheel`: zoom factor `0.9` for `deltaY > 0`, else `1.1`,
applied multiplicatively and clamped into `[0.1, 3]`. -/
def handleWheel (deltaY : ℚ) (cam : Camera) : Camera :=
  let zoomFactor : ℚ := if 0 < deltaY then 9 / 10 else 11 / 10
  { cam with scale := max (1 / 10) (min 3 (cam.scale * zoomFactor)) }

/-- `focusOnNode`: early return on a falsy coordinate, otherwise set
`targetScale = clamp(scale * 1.5, 1.8, 2.2)` and
`targetOffset = (-x * targetScale + w/2, -y * targetScale + h/2)`,
and start the animation at `now`. -/
def focusOnNode (nx ny w h now : ℚ) (cam : Camera) : Camera :=
  if nx = 0 ∨ ny = 0 then cam
  else
    let targetScale := max (9 / 5) (min (11 / 5) (cam.scale * (3 / 2)))
    { cam with
      targetScale := targetScale,
      targetOffset := (-nx * targetScale + w / 2, -ny * targetScale + h / 2),
      isAnimating := true,
      animationStart := now }

/-- `cubicBezierEasing`: cubic ease-out `1 - (1 - t)^3`. -/
def cubicBezierEasing (t : ℚ) : ℚ :=
  1 - (1 - t) ^ 3

/-- One `animateCamera` tick at wall-clock `now`: no-op unless
animating; otherwise interpolate scale and offset toward the targets by
the eased progress and clear `isAnimating` once progress reaches 1. -/
def animateCamera (now : ℚ) (cam : Camera) : Camera :=
  if cam.isAnimating = false then cam
  else
    let elapsed := now - cam.animationStart
    let progress := min (elapsed / cam.animationDuration) 1
    let easedProgress := cubicBezierEasing progress
    let cam2 :=
      { cam with
        scale := cam.scale + (cam.targetScale - cam.scale) * easedProgress,
        offset :=
          (cam.offset.1 + (cam.targetOffset.1 - cam.offset.1) * easedProgress,
           cam.offset.2 + (cam.targetOffset.2 - cam.offset.2) * easedProgress) }
    if 1 ≤ progress then { cam2 with isAnimating := false } else cam2

/-- The safety timeout (`setTimeout` at `animationDuration + 100`): it
only clears the `isAnimating` flag. -/
def safetyTimeout (cam : Camera) : Camera :=
  { cam with isAnimating := false }

/-- The interaction-relevant component state shared by the mouse
handlers: camera, drag flag, last mouse position, drag velocity. -/
structure GalaxyState where
  camera : Camera
  isDragging : Bool
  lastMouse : ℚ × ℚ
  velocity : ℚ × ℚ
deriving DecidableEq

/-- `handleMouseDown`, with the already-computed hit-test result as
argument: a hit routes to the click handler (which never touches the
camera or the drag state), a miss begins drag tracking. The camera,
including `isAnimating`, is left untouched on both paths. -/
def handleMouseDown (hit : Option PNode) (mx my : ℚ) (s : GalaxyState) :
    GalaxyState :=
  match hit with
  | some _ => s
  | none =>
    { s with isDragging := true, lastMouse := (mx, my), velocity := (0, 0) }

/-- The dragging branch of `handleMouseMove`: while `isDragging`, add
the mouse delta to the camera offset and update velocity and
`lastMouse`; the hover branch never touches the camera. No branch
consults or clears `isAnimating`. -/
def handleMouseMove (mx my : ℚ) (s : GalaxyState) : GalaxyState :=
  if s.isDragging = true then
    let deltaX := mx - s.lastMouse.1
    let deltaY := my - s.lastMouse.2
    { s with
      velocity := (deltaX * (1 / 10), deltaY * (1 / 10)),
      camera :=
        { s.camera with
          offset := (s.camera.offset.1 + deltaX, s.camera.offset.2 + deltaY) },
      lastMouse := (mx, my) }
  else s

/-- Interaction-effect kinds. -/
inductive EffectKind : Type where
  | click
  | hover
  | pulse
deriving DecidableEq

/-- Initial `life`/`maxLife` per effect kind. -/
def effectLife : EffectKind → ℕ
  | .click => 60
  | .hover => 30
  | .pulse => 40

/-- An entry of the `interactionEffects` list. -/
structure InteractionEffect where
  x : ℚ
  y : ℚ
  life : ℕ
  maxLife : ℕ
  kind : EffectKind
  color : String
deriving DecidableEq

/-- JS `prev.slice(-10)`: the last (at most) 10 elements. -/
def sliceLast10 (l : List InteractionEffect) : List InteractionEffect :=
  l.drop (l.length - 10)

/-- `createInteractionEffect`: append the new effect to the last 10
existing ones (`[...prev.slice(-10), effect]`). -/
def createInteractionEffect (x y : ℚ) (kind : EffectKind) (color : String)
    (prev : List InteractionEffect) : List InteractionEffect :=
  sliceLast10 prev ++
    [{ x := x, y := y, life := effectLife kind, maxLife := effectLife kind,
       kind := kind, color := color }]

/-- The interaction radius `getNodeAtPosition` tests against:
`(8 + (importance || 5 - depth) * 2) * (hovered ? 1.4 : 1)`. On a
positioned node `importance` is always a number, so falsiness is `= 0`. -/
def hitRadius (n : PNode) (hovered : Option String) : ℚ :=
  (8 + (if n.importance = 0 then 5 - (n.depth : ℚ) else n.importance) * 2) *
    (if hovered = some n.id then 7 / 5 else 1)

open Classical in
/-- `getNodeAtPosition`: convert the mouse position to world space with
the inverse camera transform and return the first node whose centre is
within its interaction radius. Content is never consulted. -/
noncomputable def getNodeAtPosition (nodes : List PNode)
    (hovered : Option String) (scale offx offy w h mx my : ℝ) :
    Option PNode :=
  nodes.find? fun n =>
    decide (Real.sqrt (((mx - w / 2 - offx) / scale - n.x) ^ 2 +
        ((my - h / 2 - offy) / scale - n.y) ^ 2) ≤ ((hitRadius n hovered : ℚ) : ℝ))

/-- The 3-node chain: root → child → grandchild. -/
def chainGrandchild : NoteT :=
  .node "gc" "Grandchild" "body" [] none

/-- Middle node of the 3-node chain. -/
def chainChild : NoteT :=
  .node "ch" "Child" "body" [chainGrandchild] none

/-- Root of the 3-node chain. -/
def chainRoot : NoteT :=
  .node "rt" "Root" "body" [chainChild] none

/-- The camera produced by focusing on a node at world position
`(100, 50)` with an 800×600 canvas from the initial camera. -/
def focusCam : Camera :=
  focusOnNode 100 50 800 600 0 initCamera

/-- A component state mid-focus-animation (reachable: `focusOnNode`
from the initial state), not yet dragging. -/
def animState : GalaxyState :=
  { camera := focusCam, isDragging := false, lastMouse := (0, 0),
    velocity := (0, 0) }

/-- Clear the content of a positioned node, leaving all other fields
(in particular id, x, y) unchanged. -/
def pstrip (p : PNode) : PNode :=
  { p with content := "" }

mutual

/-- Clear the content field of every node in a tree. -/
def contentStrip : NoteT → NoteT
  | .node i t _ cs imp => .node i t "" (contentStripList cs) imp

/-- Clear the content field of every node in a forest. -/
def contentStripList : List NoteT → List NoteT
  | [] => []
  | c :: cs => contentStrip c :: contentStripList cs

end

/-- The chain with different contents (one node's content even empty):
same ids, titles, structure, importance. -/
def chainGrandchildAlt : NoteT :=
  .node "gc" "Grandchild" "other text" [] none

/-- Middle node of the content-altered chain, content empty. -/
def chainChildAlt : NoteT :=
  .node "ch" "Child" "" [chainGrandchildAlt] none

/-- Root of the content-altered chain. -/
def chainRootAlt : NoteT :=
  .node "rt" "Root" "different" [chainChildAlt] none

/-- A positioned node whose content is still empty (as during
streaming), placed at the world origin. -/
def emptyContentNode : PNode :=
  { id := "e", title := "t", content := "", depth := 0, importance := 5,
    x := 0, y := 0, parent := none }

/-- Every slot the assignment loop emits is at least the starting
counter value. -/
lemma slotsFrom_ge :
    ∀ (n : ℕ) (f : ℤ) (cur : ℕ), ∀ s ∈ slotsFrom f cur n, cur ≤ s := by
  intro n
  induction n with
  | zero => intro f cur s hs; simp [slotsFrom] at hs
  | succ m ih =>
    intro f cur s hs
    simp only [slotsFrom, List.mem_cons] at hs
    rcases hs with h | h
    · subst h; split <;> omega
    · have := ih f _ s h
      split at this <;> omega

/-- The slot sequence is duplicate-free: the counter strictly
increases, so no two children share a slot. -/
lemma slotsFrom_nodup :
    ∀ (n : ℕ) (f : ℤ) (cur : ℕ), (slotsFrom f cur n).Nodup := by
  intro n
  induction n with
  | zero => intro f cur; simp [slotsFrom]
  | succ m ih =>
    intro f cur
    simp only [slotsFrom, List.nodup_cons]
    refine ⟨fun hmem => ?_, ih f _⟩
    have := slotsFrom_ge m f _ _ hmem
    omega

/-- The forbidden slot is never emitted: the loop steps over it. -/
lemma slotsFrom_ne_forbidden :
    ∀ (n : ℕ) (f : ℤ) (cur : ℕ), ∀ s ∈ slotsFrom f cur n, (s : ℤ) ≠ f := by
  intro n
  induction n with
  | zero => intro f cur s hs; simp [slotsFrom] at hs
  | succ m ih =>
    intro f cur s hs
    simp only [slotsFrom, List.mem_cons] at hs
    rcases hs with h | h
    · subst h; split <;> omega
    · exact ih f _ s h

/-- With forbidden slot `-1` (root parents) no slot is ever skipped:
the children get exactly the slots `cur, cur+1, …`. -/
lemma slotsFrom_neg_one :
    ∀ (n cur : ℕ), slotsFrom (-1) cur n = List.range' cur n := by
  intro n
  induction n with
  | zero => intro cur; simp [slotsFrom, List.range']
  | succ m ih =>
    intro cur
    have hne : ¬((cur : ℤ) = -1) := by omega
    simp only [slotsFrom, hne, if_false, List.range']
    exact congrArg _ (ih (cur + 1))

/-- C2: `traverse` hands a node's children the slot sequence
`slotsFrom forbidden 0 childCount` with
`forbidden = forbiddenSlot (d == 0) angle angleStep`; for non-root
parents `angleStep = 2π/(childCount+1)` and
`forbidden = round(((angle + π) % 2π) / angleStep)`, for root parents
`angleStep = 2π/childCount` and `forbidden = -1`; the emitted slots are
pairwise distinct, never equal to the forbidden slot, and for root
parents are exactly `0, …, childCount-1` with no reserved slot. -/
theorem child_slot_assignment :
    ∀ (i t c : String) (cs : List NoteT) (imp : Option ℚ) (d : ℕ)
      (px py angle sf : ℝ) (pid : Option String),
      ((traverse (NoteT.node i t c cs imp) d px py angle sf pid).tail =
        traverseList cs
          (slotsFrom
            (forbiddenSlot (d == 0) angle (childAngleStep (d == 0) cs.length))
            0 cs.length)
          (d + 1)
          (if d = 0 then px else px + Real.cos angle * layoutRadius sf d cs)
          (if d = 0 then py else py + Real.sin angle * layoutRadius sf d cs)
          (childAngleStep (d == 0) cs.length) sf (some i)) ∧
      (∀ f : ℤ,
        (slotsFrom f 0 cs.length).Nodup ∧
          ∀ s ∈ slotsFrom f 0 cs.length, (s : ℤ) ≠ f) ∧
      childAngleStep false cs.length = 2 * Real.pi / ((cs.length : ℝ) + 1) ∧
      childAngleStep true cs.length = 2 * Real.pi / (cs.length : ℝ) ∧
      (∀ step : ℝ,
        forbiddenSlot false angle step =
          jsRound (jsMod (angle + Real.pi) (2 * Real.pi) / step)) ∧
      (∀ step : ℝ, forbiddenSlot true angle step = -1) ∧
      slotsFrom (-1) 0 cs.length = List.range cs.length := by
  intro i t c cs imp d px py angle sf pid
  refine ⟨?_, fun f => ⟨slotsFrom_nodup _ f 0, slotsFrom_ne_forbidden _ f 0⟩,
    by simp [childAngleStep], by simp [childAngleStep],
    fun st => by simp [forbiddenSlot], fun st => by simp [forbiddenSlot], ?_⟩
  · rw [traverse]
    rfl
  · rw [slotsFrom_neg_one, List.range_eq_range']

/-- The deepest branching depth of the chain is 1 (the child, at depth
1, is the deepest node with children). -/
lemma chain_mbd : mbdList [chainRoot] 0 = 1 := by
  simp [mbdList, mbdNode, chainRoot, chainChild, chainGrandchild]

/-- The chain's scale factor is `1 + 1 = 2`. -/
lemma chain_sf : layoutScaleFactor [chainRoot] = 2 := by
  rw [layoutScaleFactor, chain_mbd]; norm_num

/-- `(0 + π) % 2π = π`. -/
lemma jsMod_pi_two_pi : jsMod (0 + Real.pi) (2 * Real.pi) = Real.pi := by
  have h2 : Real.pi / (2 * Real.pi) = 1 / 2 := by
    rw [show (2 : ℝ) * Real.pi = Real.pi * 2 by ring, ← div_div,
      div_self Real.pi_ne_zero]
  have hfl : ⌊(1 / 2 : ℝ)⌋ = 0 := by
    rw [Int.floor_eq_zero_iff]; constructor <;> norm_num
  simp [jsMod, jsTrunc, h2, hfl]
  norm_num

/-- A non-root parent reached along angle 0 with one child forbids
slot 1 (the slot pointing straight back at its parent). -/
lemma forbidden_chain : forbiddenSlot false 0 (childAngleStep false 1) = 1 := by
  have hstep : childAngleStep false 1 = Real.pi := by
    simp [childAngleStep]
    ring
  simp only [forbiddenSlot, Bool.false_eq_true, if_false, hstep,
    jsMod_pi_two_pi, div_self Real.pi_ne_zero, jsRound]
  rw [show (1 : ℝ) + 1 / 2 = 3 / 2 by norm_num]
  rw [Int.floor_eq_iff]
  norm_num

/-- Evaluation of the grandchild placement: depth 2, childless, so the
leaf pull-in applies and the radius is `500 + 100 - 400 = 200`. -/
lemma chain_gc_traverse :
    traverse chainGrandchild 2 500 0 0 2 (some "ch") =
      [{ id := "gc", title := "Grandchild", content := "body", depth := 2,
         importance := 3, x := 700, y := 0, parent := some "ch" }] := by
  rw [chainGrandchild, traverse]
  simp [traverseList, layoutRadius, impOr, PNode.mk.injEq]
  norm_num

/-- Evaluation of the child placement: depth 1 with a child, radius
500, placed at angle 0 from the root; its single grandchild gets slot 0
of the two slots (slot 1, opposite the incoming edge, is forbidden). -/
lemma chain_ch_traverse :
    traverse chainChild 1 0 0 0 2 (some "rt") =
      [{ id := "ch", title := "Child", content := "body", depth := 1,
         importance := 4, x := 500, y := 0, parent := some "rt" },
       { id := "gc", title := "Grandchild", content := "body", depth := 2,
         importance := 3, x := 700, y := 0, parent := some "ch" }] := by
  rw [chainChild, traverse]
  have hrad : layoutRadius 2 1 [chainGrandchild] = 500 := by
    norm_num [layoutRadius]
  have hslots : slotsFrom (forbiddenSlot (1 == 0) 0
      (childAngleStep (1 == 0) [chainGrandchild].length)) 0
      [chainGrandchild].length = [0] := by
    rw [show ((1 == 0) : Bool) = false from rfl,
      show [chainGrandchild].length = 1 from rfl, forbidden_chain]
    decide
  rw [hslots, hrad]
  simp only [if_neg (one_ne_zero), Real.cos_zero, Real.sin_zero, one_mul,
    zero_add, mul_zero, zero_mul]
  rw [traverseList, Nat.cast_zero, zero_mul, chain_gc_traverse]
  simp [traverseList, impOr, PNode.mk.injEq]
  norm_num

/-- Evaluation of the whole chain layout: root at the origin, child at
`(500, 0)`, grandchild at `(700, 0)`. -/
lemma chain_layout :
    generateNodePositions [chainRoot] =
      [{ id := "rt", title := "Root", content := "body", depth := 0,
         importance := 5, x := 0, y := 0, parent := none },
       { id := "ch", title := "Child", content := "body", depth := 1,
         importance := 4, x := 500, y := 0, parent := some "rt" },
       { id := "gc", title := "Grandchild", content := "body", depth := 2,
         importance := 3, x := 700, y := 0, parent := some "ch" }] := by
  rw [generateNodePositions, chain_sf]
  simp only [List.map_cons, List.map_nil, List.flatten_cons, List.flatten_nil,
    List.append_nil]
  rw [chainRoot, traverse]
  have hslots : slotsFrom (forbiddenSlot (0 == 0) 0
      (childAngleStep (0 == 0) [chainChild].length)) 0
      [chainChild].length = [0] := by
    rw [show ((0 == 0) : Bool) = true from rfl,
      show [chainChild].length = 1 from rfl]
    rw [show forbiddenSlot true 0 (childAngleStep true 1) = -1 by
      simp [forbiddenSlot]]
    decide
  rw [hslots, traverseList]
  simp [traverseList, chain_ch_traverse, impOr, PNode.mk.injEq]

/-- C3: the 3-node chain laid out with the derived constants
(`scaleFactor = 2`, `baseRadius = 500`, `depthIncrement = 100`,
`leafPullIn = 400`) gives three pairwise-distinct positions, and the
grandchild sits at distance `baseRadius + depthIncrement - leafPullIn
= 200` from the child, strictly less than `baseRadius = 500`. -/
theorem chain_layout_leaf_pull_in :
    posOf (generateNodePositions [chainRoot]) "rt" = some (0, 0) ∧
    posOf (generateNodePositions [chainRoot]) "ch" = some (500, 0) ∧
    posOf (generateNodePositions [chainRoot]) "gc" = some (700, 0) ∧
    ((0 : ℝ), (0 : ℝ)) ≠ ((500 : ℝ), (0 : ℝ)) ∧
    ((500 : ℝ), (0 : ℝ)) ≠ ((700 : ℝ), (0 : ℝ)) ∧
    ((0 : ℝ), (0 : ℝ)) ≠ ((700 : ℝ), (0 : ℝ)) ∧
    euclDist (700, 0) (500, 0) =
      layoutBaseRadius [chainRoot] + layoutDepthIncrement [chainRoot] -
        layoutLeafPullIn [chainRoot] ∧
    layoutBaseRadius [chainRoot] + layoutDepthIncrement [chainRoot] -
        layoutLeafPullIn [chainRoot] < layoutBaseRadius [chainRoot] := by
  have hdist : euclDist (700, 0) (500, 0) = 200 := by
    rw [euclDist]
    norm_num
    rw [show (40000 : ℝ) = 200 ^ 2 by norm_num]
    exact Real.sqrt_sq (by norm_num)
  have hbase : layoutBaseRadius [chainRoot] = 500 := by
    rw [layoutBaseRadius, chain_sf]; norm_num
  have hinc : layoutDepthIncrement [chainRoot] = 100 := by
    rw [layoutDepthIncrement, chain_sf]; norm_num
  have hpull : layoutLeafPullIn [chainRoot] = 400 := by
    rw [layoutLeafPullIn, chain_sf]; norm_num
  rw [chain_layout, hbase, hinc, hpull, hdist]
  refine ⟨?_, ?_, ?_, ?_, ?_, ?_, by norm_num, by norm_num⟩ <;>
    simp [posOf, List.find?, Prod.ext_iff]

/-- One wheel step always lands the scale inside `[1/10, 3]`. -/
lemma handleWheel_scale_bounds (d : ℚ) (cam : Camera) :
    1 / 10 ≤ (handleWheel d cam).scale ∧ (handleWheel d cam).scale ≤ 3 := by
  refine ⟨le_max_left _ _, max_le (by norm_num) (min_le_left _ _)⟩

/-- Folding wheel events preserves the `[1/10, 3]` scale bounds. -/
lemma foldl_handleWheel_bounds :
    ∀ (ds : List ℚ) (cam : Camera),
      1 / 10 ≤ cam.scale → cam.scale ≤ 3 →
      1 / 10 ≤ (ds.foldl (fun c d => handleWheel d c) cam).scale ∧
        (ds.foldl (fun c d => handleWheel d c) cam).scale ≤ 3 := by
  intro ds
  induction ds with
  | nil => intro cam h1 h2; exact ⟨h1, h2⟩
  | cons d rest ih =>
    intro cam _ _
    simpa using ih (handleWheel d cam) (handleWheel_scale_bounds d cam).1
      (handleWheel_scale_bounds d cam).2

/-- C1: running the layout twice on the same unmodified tree yields
identical coordinates for every node id; `generateNodePositions` is a
pure function of the input tree with no time, randomness or prior
layout state among its inputs. -/
theorem layout_deterministic :
    ∀ roots : List NoteT,
      generateNodePositions roots = generateNodePositions roots ∧
      ∀ i : String,
        posOf (generateNodePositions roots) i =
          posOf (generateNodePositions roots) i :=
  fun _ => ⟨rfl, fun _ => rfl⟩

/-- C4: each wheel event multiplies the scale by 0.9 (`deltaY > 0`) or
1.1 and clamps into `[0.1, 3]`; at scale 1, `deltaY = 100` gives 0.9
and `deltaY = -100` gives 1.1; any finite event sequence from the
initial camera keeps the scale in `[0.1, 3]`. -/
theorem wheel_zoom_multiplicative_clamped :
    (∀ (d : ℚ) (cam : Camera),
        (handleWheel d cam).scale =
          max (1 / 10) (min 3 (cam.scale * (if 0 < d then 9 / 10 else 11 / 10)))) ∧
    (handleWheel 100 initCamera).scale = 9 / 10 ∧
    (handleWheel (-100) initCamera).scale = 11 / 10 ∧
    ∀ ds : List ℚ,
      1 / 10 ≤ (ds.foldl (fun c d => handleWheel d c) initCamera).scale ∧
        (ds.foldl (fun c d => handleWheel d c) initCamera).scale ≤ 3 := by
  refine ⟨fun d cam => rfl, ?_, ?_, fun ds => ?_⟩
  · norm_num [handleWheel, initCamera, max_def, min_def]
  · norm_num [handleWheel, initCamera, max_def, min_def]
  · exact foldl_handleWheel_bounds ds initCamera (by norm_num [initCamera])
      (by norm_num [initCamera])

/-- C5 (code evaluated at the failing input): focusing on the node at
`(100, 50)` with an 800×600 canvas sets `targetScale = 1.8`, starts the
animation, but sets `targetOffset = (220, 210)` — not the claimed
`(-node.x * targetScale, -node.y * targetScale) = (-180, -90)` — so
under the render transform `screen = world * scale + canvasSize/2 +
offset` the node ends at `(800, 600)`, the bottom-right corner, instead
of the canvas centre `(400, 300)`. -/
theorem focusOnNode_misses_center :
    focusCam.targetScale = 9 / 5 ∧
    focusCam.isAnimating = true ∧
    focusCam.animationStart = 0 ∧
    focusCam.targetOffset = (220, 210) ∧
    focusCam.targetOffset ≠
      (-(100 : ℚ) * focusCam.targetScale, -(50 : ℚ) * focusCam.targetScale) ∧
    (100 * focusCam.targetScale + 800 / 2 + focusCam.targetOffset.1,
      50 * focusCam.targetScale + 600 / 2 + focusCam.targetOffset.2) =
      ((800 : ℚ), (600 : ℚ)) := by
  norm_num [focusCam, focusOnNode, initCamera, max_def, min_def, Prod.ext_iff]

/-- C6 counterexample: on the safety-timeout path the animation ends
(`isAnimating` becomes false) with the scale still different from
`targetScale`: the timeout only clears the flag. -/
theorem safetyTimeout_leaves_scale_short :
    (safetyTimeout focusCam).isAnimating = false ∧
    (safetyTimeout focusCam).scale ≠ focusCam.targetScale := by
  norm_num [safetyTimeout, focusCam, focusOnNode, initCamera, max_def, min_def]

/-- C6 as amended: when the animation tick reaches progress 1 the
camera ends not animating with scale and offset exactly equal to the
targets; the safety timeout, in contrast, only clears `isAnimating`
and leaves scale and offset at their current values. -/
theorem animation_end_exact (cam : Camera) (now : ℚ)
    (hA : cam.isAnimating = true) (hd : 0 < cam.animationDuration)
    (hle : cam.animationDuration ≤ now - cam.animationStart) :
    ((animateCamera now cam).isAnimating = false ∧
      (animateCamera now cam).scale = cam.targetScale ∧
      (animateCamera now cam).offset = cam.targetOffset) ∧
    ((safetyTimeout cam).isAnimating = false ∧
      (safetyTimeout cam).scale = cam.scale ∧
      (safetyTimeout cam).offset = cam.offset) := by
  refine ⟨?_, by simp [safetyTimeout]⟩
  have h1 : (1 : ℚ) ≤ (now - cam.animationStart) / cam.animationDuration :=
    (one_le_div hd).mpr hle
  have hmin : min ((now - cam.animationStart) / cam.animationDuration) 1 = 1 :=
    min_eq_right h1
  simp only [animateCamera, hA, hmin, cubicBezierEasing]
  norm_num

/-- C6 witness: the amended statement holds concretely for the camera
started by `focusOnNode` at time 0, ticked at 600 ms. -/
theorem animation_end_exact_witness :
    ((animateCamera 600 focusCam).isAnimating = false ∧
      (animateCamera 600 focusCam).scale = focusCam.targetScale ∧
      (animateCamera 600 focusCam).offset = focusCam.targetOffset) ∧
    ((safetyTimeout focusCam).isAnimating = false ∧
      (safetyTimeout focusCam).scale = focusCam.scale ∧
      (safetyTimeout focusCam).offset = focusCam.offset) :=
  animation_end_exact focusCam 600
    (by norm_num [focusCam, focusOnNode, initCamera])
    (by norm_num [focusCam, focusOnNode, initCamera])
    (by norm_num [focusCam, focusOnNode, initCamera])

/-- C7 counterexample: from a state with a focus animation in flight, a
mouse-down on empty space followed by a mouse-move changes the camera
offset while `isAnimating` is still true — the pan is neither rejected
nor does it cancel the animation. -/
theorem pan_during_animation_unresolved :
    animState.camera.isAnimating = true ∧
    (handleMouseMove 20 15 (handleMouseDown none 10 10 animState)).camera.offset ≠
      animState.camera.offset ∧
    (handleMouseMove 20 15
        (handleMouseDown none 10 10 animState)).camera.isAnimating = true := by
  norm_num [animState, focusCam, focusOnNode, initCamera, handleMouseDown,
    handleMouseMove, Prod.ext_iff]

/-- C7 as amended: starting a drag leaves the camera (including
`isAnimating`) untouched, and a subsequent mouse-move applies the pan
delta to the offset while preserving `isAnimating` — dragging does not
cancel an in-flight animation and panning is not rejected. -/
theorem drag_pans_while_animating :
    ∀ (s : GalaxyState) (mx my qx qy : ℚ),
      (handleMouseDown none mx my s).camera = s.camera ∧
      (handleMouseMove qx qy (handleMouseDown none mx my s)).camera.offset =
        (s.camera.offset.1 + (qx - mx), s.camera.offset.2 + (qy - my)) ∧
      (handleMouseMove qx qy (handleMouseDown none mx my s)).camera.isAnimating =
        s.camera.isAnimating := by
  intro s mx my qx qy
  refine ⟨rfl, ?_, ?_⟩ <;> simp [handleMouseDown, handleMouseMove]

/-- Folding interaction-effect insertions preserves the length bound. -/
lemma foldl_createInteractionEffect_le :
    ∀ (calls : List (ℚ × ℚ × EffectKind × String))
      (acc : List InteractionEffect), acc.length ≤ 11 →
      (calls.foldl
          (fun acc c => createInteractionEffect c.1 c.2.1 c.2.2.1 c.2.2.2 acc)
          acc).length ≤ 11 := by
  intro calls
  induction calls with
  | nil => intro acc h; exact h
  | cons c rest ih =>
    intro acc _
    refine ih _ ?_
    simp [createInteractionEffect, sliceLast10]
    omega

/-- C10: each `createInteractionEffect` call keeps at most the last 10
existing effects plus the new one, so the list length is
`min (previous length) 10 + 1 ≤ 11` after every call, and after any
nonempty sequence of calls from any starting list the length is at
most 11. -/
theorem interaction_effects_bounded :
    (∀ (prev : List InteractionEffect) (x y : ℚ) (k : EffectKind) (c : String),
        (createInteractionEffect x y k c prev).length = min prev.length 10 + 1) ∧
    (∀ (prev : List InteractionEffect) (x y : ℚ) (k : EffectKind) (c : String),
        (createInteractionEffect x y k c prev).length ≤ 11) ∧
    (∀ (start : List InteractionEffect) (first : ℚ × ℚ × EffectKind × String)
        (calls : List (ℚ × ℚ × EffectKind × String)),
        ((first :: calls).foldl
            (fun acc c => createInteractionEffect c.1 c.2.1 c.2.2.1 c.2.2.2 acc)
            start).length ≤ 11) := by
  have hlen : ∀ (prev : List InteractionEffect) (x y : ℚ) (k : EffectKind)
      (c : String),
      (createInteractionEffect x y k c prev).length = min prev.length 10 + 1 := by
    intro prev x y k c
    simp [createInteractionEffect, sliceLast10]
    omega
  refine ⟨hlen, fun prev x y k c => ?_, fun start first calls => ?_⟩
  · rw [hlen]; omega
  · rw [List.foldl_cons]
    refine foldl_createInteractionEffect_le calls _ ?_
    rw [hlen]; omega

/-- Stripping content preserves the length of a forest. -/
lemma contentStripList_length :
    ∀ cs : List NoteT, (contentStripList cs).length = cs.length := by
  intro cs
  induction cs with
  | nil => rw [contentStripList]
  | cons c rest ih => rw [contentStripList, List.length_cons, List.length_cons, ih]

/-- Stripping content preserves emptiness of a forest. -/
lemma contentStripList_isEmpty :
    ∀ cs : List NoteT, (contentStripList cs).isEmpty = cs.isEmpty := by
  intro cs
  cases cs with
  | nil => rw [contentStripList]
  | cons c rest => rw [contentStripList]; rfl

/-- The placement radius only looks at the children's emptiness, so it
is unchanged by content stripping. -/
lemma layoutRadius_strip (sf : ℝ) (d : ℕ) (cs : List NoteT) :
    layoutRadius sf d (contentStripList cs) = layoutRadius sf d cs := by
  rw [layoutRadius, layoutRadius, contentStripList_isEmpty]

mutual

/-- `maxBranchingDepth` of one node is unchanged by content stripping. -/
theorem mbdNode_strip (n : NoteT) (d : ℕ) :
    mbdNode (contentStrip n) d = mbdNode n d := by
  cases n with
  | node i t c cs imp =>
    rw [contentStrip]
    cases cs with
    | nil => rw [contentStripList]; simp [mbdNode]
    | cons c0 cs0 =>
      rw [contentStripList, mbdNode, mbdNode,
        show contentStrip c0 :: contentStripList cs0 =
          contentStripList (c0 :: cs0) by rw [contentStripList],
        mbdList_strip (c0 :: cs0) (d + 1)]

/-- `maxBranchingDepth` of a forest is unchanged by content stripping. -/
theorem mbdList_strip (cs : List NoteT) (d : ℕ) :
    mbdList (contentStripList cs) d = mbdList cs d := by
  cases cs with
  | nil => rw [contentStripList]
  | cons c0 cs0 =>
    rw [contentStripList, mbdList, mbdList, mbdNode_strip c0 d,
      mbdList_strip cs0 d]

end

mutual

/-- Laying out a content-stripped tree gives exactly the content-
stripped positioned nodes: coordinates, ids, depths and importance are
unchanged. -/
theorem traverse_strip (n : NoteT) (d : ℕ) (px py angle sf : ℝ)
    (pid : Option String) :
    traverse (contentStrip n) d px py angle sf pid =
      (traverse n d px py angle sf pid).map pstrip := by
  cases n with
  | node i t c cs imp =>
    rw [contentStrip, traverse, traverse, List.map_cons,
      contentStripList_length, layoutRadius_strip]
    congr 1
    exact traverseList_strip cs _ _ _ _ _ _ _

/-- Forest version of `traverse_strip`. -/
theorem traverseList_strip (cs : List NoteT) (slots : List ℕ) (d : ℕ)
    (px py step sf : ℝ) (pid : Option String) :
    traverseList (contentStripList cs) slots d px py step sf pid =
      (traverseList cs slots d px py step sf pid).map pstrip := by
  cases cs with
  | nil => rw [contentStripList]; simp only [traverseList, List.map_nil]
  | cons c0 cs0 =>
    cases slots with
    | nil => rw [contentStripList]; simp only [traverseList, List.map_nil]
    | cons s ss =>
      rw [contentStripList, traverseList, traverseList, List.map_append,
        traverse_strip c0 d px py _ sf pid,
        traverseList_strip cs0 ss d px py step sf pid]

end

/-- Whole-layout version of `traverse_strip`, with the scale factor
passed explicitly. -/
lemma flatten_traverse_strip :
    ∀ (roots : List NoteT) (sf : ℝ),
      ((contentStripList roots).map
          (fun r => traverse r 0 0 0 0 sf none)).flatten =
        ((roots.map (fun r => traverse r 0 0 0 0 sf none)).flatten).map pstrip := by
  intro roots sf
  induction roots with
  | nil => rw [contentStripList]; rfl
  | cons r rest ih =>
    rw [contentStripList, List.map_cons, List.map_cons, List.flatten_cons,
      List.flatten_cons, List.map_append, traverse_strip, ih]

/-- `generateNodePositions` commutes with content stripping. -/
lemma generateNodePositions_strip (roots : List NoteT) :
    generateNodePositions (contentStripList roots) =
      (generateNodePositions roots).map pstrip := by
  rw [generateNodePositions, generateNodePositions,
    show layoutScaleFactor (contentStripList roots) = layoutScaleFactor roots by
      rw [layoutScaleFactor, layoutScaleFactor, mbdList_strip],
    flatten_traverse_strip]

/-- `posOf` ignores content, so it is unchanged by `pstrip`. -/
lemma posOf_pstrip (l : List PNode) (i : String) :
    posOf (l.map pstrip) i = posOf l i := by
  rw [posOf, posOf, List.find?_map, Option.map_map]
  rfl

/-- C9: two trees identical except for content fields produce identical
coordinates for every node id. -/
theorem layout_ignores_content :
    ∀ roots1 roots2 : List NoteT,
      contentStripList roots1 = contentStripList roots2 →
      ∀ i : String,
        posOf (generateNodePositions roots1) i =
          posOf (generateNodePositions roots2) i := by
  intro roots1 roots2 h i
  calc posOf (generateNodePositions roots1) i
      = posOf ((generateNodePositions roots1).map pstrip) i :=
        (posOf_pstrip _ _).symm
    _ = posOf (generateNodePositions (contentStripList roots1)) i := by
        rw [generateNodePositions_strip]
    _ = posOf (generateNodePositions (contentStripList roots2)) i := by rw [h]
    _ = posOf ((generateNodePositions roots2).map pstrip) i := by
        rw [generateNodePositions_strip]
    _ = posOf (generateNodePositions roots2) i := posOf_pstrip _ _

/-- C9 witness: the original chain and the content-altered chain strip
to the same tree and get the same coordinates for the grandchild. -/
theorem layout_ignores_content_witness :
    contentStripList [chainRoot] = contentStripList [chainRootAlt] ∧
    posOf (generateNodePositions [chainRoot]) "gc" =
      posOf (generateNodePositions [chainRootAlt]) "gc" := by
  have h : contentStripList [chainRoot] = contentStripList [chainRootAlt] := by
    simp [contentStripList, contentStrip, chainRoot, chainChild,
      chainGrandchild, chainRootAlt, chainChildAlt, chainGrandchildAlt]
  exact ⟨h, layout_ignores_content [chainRoot] [chainRootAlt] h "gc"⟩

/-- C8 counterexample: clicking the exact screen position of a node
with empty content (canvas 800×600, identity camera, click at the
centre) returns that node — the hit test never consults content, so an
invisible (render-progress 0) node is still hit. -/
theorem empty_content_node_is_hit :
    getNodeAtPosition [emptyContentNode] none 1 0 0 800 600 400 300 =
      some emptyContentNode ∧
    emptyContentNode.content = "" := by
  constructor
  · rw [getNodeAtPosition]
    refine List.find?_cons_of_pos _ ?_
    rw [decide_eq_true_eq]
    have hr : hitRadius emptyContentNode none = 18 := by
      rw [hitRadius]
      norm_num [emptyContentNode]
      simp
    rw [hr]
    norm_num [emptyContentNode, Real.sqrt_zero]
  · rfl

/-- C8 as amended: the hit test ignores content entirely — stripping
every node's content commutes with `getNodeAtPosition` — so a node
whose content is empty (and therefore renders at radius 0) is hit
exactly as if its content were populated. -/
theorem hit_test_ignores_content :
    ∀ (nodes : List PNode) (hovered : Option String)
      (scale offx offy w h mx my : ℝ),
      getNodeAtPosition (nodes.map pstrip) hovered scale offx offy w h mx my =
        Option.map pstrip
          (getNodeAtPosition nodes hovered scale offx offy w h mx my) := by
  intro nodes hovered scale offx offy w h mx my
  rw [getNodeAtPosition, getNodeAtPosition, List.find?_map]
  rfl

/-- C2 witness: for a non-root parent with three children and forbidden
slot 5, the emitted slots `[0, 1, 2]` are duplicate-free and the slot
bound to the third child differs from the forbidden slot. -/
theorem child_slot_assignment_witness :
    (slotsFrom 5 0 [chainGrandchild, chainGrandchild, chainGrandchild].length).Nodup ∧
    ((2 : ℕ) : ℤ) ≠ (5 : ℤ) := by
  have h := (child_slot_assignment "i" "t" "c"
    [chainGrandchild, chainGrandchild, chainGrandchild] none 1 0 0 0 1 none).2.1 5
  exact ⟨h.1, h.2 2 (by decide)⟩

end Galaxy
